import Mathlib

/-!
Verification of the i18n / gallery / lazy-load core of the Ofra-CV-Site
repository.  The definitions below are shallow embeddings of:
  * `src/services/I18nService.ts` (language state, dotted-key translation
    lookup with English fallback, parameter interpolation, localStorage
    persistence, subscriber notification);
  * `src/components/Gallery.tsx` (lightbox open/close/next/previous state
    and the per-image loading/error record maps);
  * `src/hooks/useLazyLoad.ts` and `src/components/LazyImage.tsx`
    (viewport-intersection driven image loading with a fail-open fallback
    when IntersectionObserver is unavailable).
JavaScript `Record`/object dictionaries are modelled as association lists
(object keys are unique, lookup is by key), the JS `Set` of listener
callbacks is modelled as a duplicate-free insertion-ordered list of
listener identities, and localStorage is modelled as a store that either
accepts a write or throws (the thrown case is caught by the service).
-/

namespace Site

/-- The `Language` union type of I18nService.ts: exactly `he` and `en`. -/
inductive Language
  | he
  | en
deriving DecidableEq, Repr

/-- The `TextDirection` union type: `rtl` or `ltr`. -/
inductive TextDirection
  | rtl
  | ltr
deriving DecidableEq, Repr

/-- The `TranslationData` shape: a nested dictionary whose values are either leaf
strings or further dictionaries.  A JS object is modelled as an
association list with unique keys; `k in value` / `value[k]` is
association-list lookup.  (Prototype-chain keys such as `toString` resolve
to functions in JS, never to strings, so they produce the same `translate`
results as a plain missing key.) -/
inductive TransValue
  | str : String → TransValue
  | dict : List (String × TransValue) → TransValue

/-- The loop body of `translate`: walk the dotted-key segments through a
nested dictionary.  Returns `none` as soon as a segment is missing or the
current value is not an object (the condition
`value && typeof value === 'object' && k in value` fails). -/
def walkPath : List String → TransValue → Option TransValue
  | [], value => some value
  | k :: ks, TransValue.dict d =>
    match List.lookup k d with
    | some v => walkPath ks v
    | none => none
  | _ :: _, TransValue.str _ => none

/-- State of one `I18nService` instance: the current language, the two
loaded dictionaries (`this.translations.he` / `this.translations.en`) and
the listener set (JS `Set`, modelled by listener identity). -/
structure I18nService where
  currentLanguage : Language
  heDict : List (String × TransValue)
  enDict : List (String × TransValue)
  listeners : List Nat

/-- The dictionary selection `this.translations[language]`. -/
def langDict (svc : I18nService) : Language → List (String × TransValue)
  | Language.he => svc.heDict
  | Language.en => svc.enDict

/-- The `getDirection()` read: `he → rtl`, otherwise `ltr`. -/
def getDirection (svc : I18nService) : TextDirection :=
  if svc.currentLanguage = Language.he then TextDirection.rtl else TextDirection.ltr

/-- The JavaScript `key.split('.')` on the character list: split at every
occurrence of the separator; the result always has at least one (possibly
empty) group. -/
def splitChar (sep : Char) : List Char → List (List Char)
  | [] => [[]]
  | c :: rest =>
    match splitChar sep rest with
    | [] => [[]]
    | g :: gs => if c = sep then [] :: g :: gs else (c :: g) :: gs

/-- The `key.split('.')` result: the list of dotted-path segments of a key. -/
def keySegments (key : String) : List String :=
  (splitChar '.' key.data).map String.mk

/-- Fuel-indexed scan for global literal replacement (the fuel bounds the
number of characters still to be scanned; it is irrelevant as soon as it
is at least the length of the input, see `replaceListAux_fuel`). -/
def replaceListAux (pat rep : List Char) : Nat → List Char → List Char
  | _, [] => []
  | 0, s => s
  | fuel + 1, c :: rest =>
    if pat.isPrefixOf (c :: rest) then
      rep ++ replaceListAux pat rep fuel (List.drop (pat.length - 1) rest)
    else
      c :: replaceListAux pat rep fuel rest

/-- Global replacement of a literal pattern in a character list, the
semantics of `String.prototype.replace` with a global regex that matches
the pattern literally: scan left to right, at each position replace the
pattern if it starts there (then continue after it), otherwise keep the
character. -/
def replaceList (pat rep s : List Char) : List Char :=
  replaceListAux pat rep s.length s

/-- String-level wrapper for `replaceList`. -/
def replaceAllStr (s pat rep : String) : String :=
  String.mk (replaceList pat.data rep.data s.data)

/-- The interpolation pattern built for a parameter name: the literal text
of the regex `new RegExp('\x7b\x7b' + paramKey + '\x7d\x7d', 'g')`
(for parameter names without regex metacharacters the regex matches this
text literally). -/
def holeToken (name : String) : String :=
  "\x7b\x7b" ++ name ++ "\x7d\x7d"

/-- The `Object.entries(params).reduce(...)` interpolation step of
`translate`: replace every occurrence of each parameter's placeholder with
its value, one parameter after another, in entry order. -/
def applyParams (value : String) (params : List (String × String)) : String :=
  params.foldl (fun result p => replaceAllStr result (holeToken p.1) p.2) value

/-- Key resolution of `translate`: walk the active dictionary with the
full dotted path; at the first failure restart once from the English
dictionary with the full original path (the inner fallback loop). -/
def resolveValue (svc : I18nService) (key : String) : Option TransValue :=
  let keys := keySegments key
  match walkPath keys (TransValue.dict (langDict svc svc.currentLanguage)) with
  | some v => some v
  | none => walkPath keys (TransValue.dict svc.enDict)

/-- The `translate(key, params?)` method: resolve the key (with English fallback);
if the resolved value is missing or not a string return the key itself,
otherwise interpolate the parameters.  An omitted `params` argument is the
empty parameter list (the `reduce` over no entries is the identity). -/
def translate (svc : I18nService) (key : String) (params : List (String × String)) : String :=
  match resolveValue svc key with
  | some (TransValue.str s) => applyParams s params
  | _ => key

/-- The localStorage slot for the fixed `STORAGE_KEY`, together with a
flag saying whether writes currently succeed (storage can be unavailable
or over quota, in which case `setItem` throws). -/
structure Storage where
  available : Bool
  value : Option String

/-- The stored string for a language value. -/
def langCode : Language → String
  | Language.he => "he"
  | Language.en => "en"

/-- The `localStorage.setItem(STORAGE_KEY, v)` call: succeeds or throws. -/
def storageSetItem (store : Storage) (v : String) : Except Unit Storage :=
  if store.available then Except.ok { store with value := some v }
  else Except.error ()

/-- The `saveLanguageToStorage` method: try to write, catch any error (the catch
branch only logs a warning, so the store is left unchanged). -/
def saveLanguageToStorage (store : Storage) (language : Language) : Storage :=
  match storageSetItem store (langCode language) with
  | Except.ok s => s
  | Except.error _ => store

/-- The `notifyListeners()` method: invoke every listener with `this.currentLanguage`;
modelled as the list of (listener, argument) invocation events, in set
insertion order. -/
def notifyListeners (svc : I18nService) : List (Nat × Language) :=
  svc.listeners.map (fun l => (l, svc.currentLanguage))

/-- The `setLanguage(language)` method: set the in-memory language, then persist
(best effort), then synchronously notify the listeners.  The returned
event list is what the listeners are called with before `setLanguage`
returns. -/
def setLanguage (svc : I18nService) (store : Storage) (language : Language) :
    I18nService × Storage × List (Nat × Language) :=
  let svc2 := { svc with currentLanguage := language }
  let store2 := saveLanguageToStorage store language
  (svc2, store2, notifyListeners svc2)

/-- The `subscribe(listener)` method: `this.listeners.add(listener)` — a JS `Set`
adds only if the element is not already present. -/
def subscribe (svc : I18nService) (listener : Nat) : I18nService :=
  if listener ∈ svc.listeners then svc
  else { svc with listeners := svc.listeners ++ [listener] }

/-- The unsubscribe closure returned by `subscribe`:
`() => this.listeners.delete(listener)`. -/
def unsubscribe (svc : I18nService) (listener : Nat) : I18nService :=
  { svc with listeners := svc.listeners.erase listener }

/-- One externally triggered operation on the service (used to state that
an unsubscribed listener is never notified by any later activity that does
not re-subscribe it). -/
inductive Op
  | sub : Nat → Op
  | unsub : Nat → Op
  | setLang : Language → Op
deriving DecidableEq

/-- Apply one operation, returning the new service, store and the listener
invocation events it produced. -/
def applyOp (svc : I18nService) (store : Storage) : Op → I18nService × Storage × List (Nat × Language)
  | Op.sub l => (subscribe svc l, store, [])
  | Op.unsub l => (unsubscribe svc l, store, [])
  | Op.setLang lang => setLanguage svc store lang

/-- Run a sequence of operations, accumulating all invocation events. -/
def runOps (svc : I18nService) (store : Storage) : List Op → I18nService × Storage × List (Nat × Language)
  | [] => (svc, store, [])
  | op :: ops =>
    let r1 := applyOp svc store op
    let r2 := runOps r1.1 r1.2.1 ops
    (r2.1, r2.2.1, r1.2.2 ++ r2.2.2)

/-- The `GalleryImage` descriptor of Gallery.tsx. -/
structure GalleryImage where
  id : String
  filename : String
  thumbnailUrl : String
  fullUrl : String
  captionKey : String
  alt : String
  width : Option Nat
  height : Option Nat
deriving DecidableEq

/-- The Gallery component's own state: `selectedIndex`, `isLightboxOpen`,
and the two per-image-id `Record<string, boolean>` maps. -/
structure GalleryState where
  selectedIndex : Option Nat
  isLightboxOpen : Bool
  loadingStates : List (String × Bool)
  errorStates : List (String × Bool)
deriving DecidableEq

/-- The `handleThumbnailClick(index)` handler. -/
def handleThumbnailClick (st : GalleryState) (index : Nat) : GalleryState :=
  { st with selectedIndex := some index, isLightboxOpen := true }

/-- The `handleClose()` handler. -/
def handleClose (st : GalleryState) : GalleryState :=
  { st with isLightboxOpen := false, selectedIndex := none }

/-- The `handleNext()` handler: advance only when `selectedIndex !== null` and
`selectedIndex < images.length - 1` (with JS numbers; for a natural-number
index the two readings of `images.length - 1` agree because the guard is
false whenever `images.length ≤ 1`). -/
def handleNext (images : List GalleryImage) (st : GalleryState) : GalleryState :=
  match st.selectedIndex with
  | some i =>
    if i < images.length - 1 then { st with selectedIndex := some (i + 1) } else st
  | none => st

/-- The `handlePrevious()` handler: retreat only when `selectedIndex !== null` and
`selectedIndex > 0`. -/
def handlePrevious (st : GalleryState) : GalleryState :=
  match st.selectedIndex with
  | some i =>
    if 0 < i then { st with selectedIndex := some (i - 1) } else st
  | none => st

/-- Write one key of a `Record<string, boolean>` (object spread
`\x7b...prev, [imageId]: v\x7d`): overwrite an existing entry, else append. -/
def recordSet (m : List (String × Bool)) (k : String) (v : Bool) : List (String × Bool) :=
  if m.any (fun p => p.1 == k) then
    m.map (fun p => if p.1 == k then (p.1, v) else p)
  else m ++ [(k, v)]

/-- The `handleImageLoad(imageId)` handler. -/
def handleImageLoad (st : GalleryState) (imageId : String) : GalleryState :=
  { st with loadingStates := recordSet st.loadingStates imageId false }

/-- The `handleImageError(imageId)` handler. -/
def handleImageError (st : GalleryState) (imageId : String) : GalleryState :=
  { st with
    loadingStates := recordSet st.loadingStates imageId false,
    errorStates := recordSet st.errorStates imageId true }

/-- The `useEffect(..., [images])` body of Gallery.tsx: when the image
list changes it rebuilds `loadingStates` as `\x7bid: true\x7d` for every image
of the new list.  It touches no other piece of the component state. -/
def imagesChangedEffect (images : List GalleryImage) (st : GalleryState) : GalleryState :=
  { st with loadingStates := images.map (fun image => (image.id, true)) }

/-- The lightbox invariant claimed by the spec: when open, the selected
index is a valid index into the current image list; when closed, no index
is selected. -/
def LightboxInv (images : List GalleryImage) (st : GalleryState) : Prop :=
  (st.isLightboxOpen = true → ∃ i, st.selectedIndex = some i ∧ i < images.length) ∧
  (st.isLightboxOpen = false → st.selectedIndex = none)

/-- The two state flags of the `useLazyLoad` hook. -/
structure LazyLoadState where
  isIntersecting : Bool
  hasIntersected : Bool
deriving DecidableEq

/-- Initial hook state: both flags false. -/
def useLazyLoadInit : LazyLoadState :=
  { isIntersecting := false, hasIntersected := false }

/-- The hook's effect body: with no element it does nothing; when
`IntersectionObserver` is not in `window` it sets both flags true
immediately (fail open); otherwise it registers an observer and leaves the
state to the observer callback. -/
def lazyLoadEffect (hasElement observerSupported : Bool) (st : LazyLoadState) : LazyLoadState :=
  if hasElement = false then st
  else if observerSupported = false then
    { isIntersecting := true, hasIntersected := true }
  else st

/-- The IntersectionObserver callback for one entry: record the current
intersection flag; once intersected, `hasIntersected` stays true. -/
def observerCallback (entryIsIntersecting : Bool) (st : LazyLoadState) : LazyLoadState :=
  { isIntersecting := entryIsIntersecting,
    hasIntersected := if entryIsIntersecting then true else st.hasIntersected }

/-- JS truthiness of the `imageSrc` state (`!imageSrc`): null or empty. -/
def jsFalsyStr : Option String → Bool
  | none => true
  | some s => s == ""

/-- The LazyImage effect `if (hasIntersected && !imageSrc) setImageSrc(src)`:
starting the actual image load. -/
def lazyImageSrcEffect (hasIntersected : Bool) (src : String) (imageSrc : Option String) :
    Option String :=
  if hasIntersected && jsFalsyStr imageSrc then some src else imageSrc

/-- Does a literal pattern occur anywhere in a character list? -/
def occursList (pat : List Char) : List Char → Bool
  | [] => pat.isPrefixOf []
  | c :: rest => pat.isPrefixOf (c :: rest) || occursList pat rest

/-- Does a literal pattern occur anywhere in a string? -/
def strOccurs (s pat : String) : Bool :=
  occursList pat.data s.data

/-- The opening brace character. -/
def lb : Char := '\x7b'

/-- The closing brace character. -/
def rb : Char := '\x7d'

/-- A string without brace characters. -/
def braceFree (s : String) : Bool :=
  s.data.all (fun c => !(c == lb) && !(c == rb))

/-- A parameter name made of alphanumeric characters only (such a name
contains no braces and no regex metacharacters, so the interpolation
regex built from it matches its placeholder text literally). -/
def alphanumName (s : String) : Bool :=
  s.data.all Char.isAlphanum

/-- A string without the dollar character, which is special in the
replacement argument of the JS `replace` call. -/
def noDollar (s : String) : Bool :=
  s.data.all (fun c => !(c == '$'))

/-- The placeholder pattern at character-list level. -/
def holePatL (q : List Char) : List Char :=
  lb :: lb :: (q ++ [rb, rb])

/-- One piece of a well-formed resolved string: literal text or a
placeholder. -/
inductive Chunk
  | lit : String → Chunk
  | hole : String → Chunk

/-- The character-level rendering of one chunk. -/
def chunkL : Chunk → List Char
  | Chunk.lit s => s.data
  | Chunk.hole n => holePatL n.data

/-- The character-level rendering of a chunk list. -/
def renderL : List Chunk → List Char
  | [] => []
  | c :: t => chunkL c ++ renderL t

/-- The string rendering of one chunk. -/
def renderChunk : Chunk → String
  | Chunk.lit s => s
  | Chunk.hole n => holeToken n

/-- The string rendering of a chunk list: the resolved string it
describes. -/
def renderTemplate : List Chunk → String
  | [] => ""
  | c :: t => renderChunk c ++ renderTemplate t

/-- One interpolation pass applied at chunk level: the holes named by the
processed parameter become literal text holding its value. -/
def passChunk (k v : String) : Chunk → Chunk
  | Chunk.lit s => Chunk.lit s
  | Chunk.hole n => if n == k then Chunk.lit v else Chunk.hole n

/-- What the spec promises chunkwise: a placeholder with a parameter entry
becomes the (first) corresponding value, a placeholder without one stays
intact, literal text is untouched. -/
def substChunk (params : List (String × String)) : Chunk → String
  | Chunk.lit s => s
  | Chunk.hole n =>
    match List.lookup n params with
    | some v => v
    | none => holeToken n

/-- The fully interpolated rendering of a chunk list. -/
def renderSubst (params : List (String × String)) : List Chunk → String
  | [] => ""
  | c :: t => substChunk params c ++ renderSubst params t

/-- Well-formedness of one chunk: literal text has no braces, a
placeholder name is alphanumeric. -/
def ChunkOK : Chunk → Prop
  | Chunk.lit s => braceFree s = true
  | Chunk.hole n => alphanumName n = true

/-- Well-formedness of one parameter: alphanumeric name, value without
braces or dollar characters. -/
def ParamOK (p : String × String) : Prop :=
  alphanumName p.1 = true ∧ braceFree p.2 = true ∧ noDollar p.2 = true

instance chunkOKDec : ∀ c, Decidable (ChunkOK c)
  | Chunk.lit s => inferInstanceAs (Decidable (braceFree s = true))
  | Chunk.hole n => inferInstanceAs (Decidable (alphanumName n = true))

instance paramOKDec (p : String × String) : Decidable (ParamOK p) :=
  inferInstanceAs
    (Decidable (alphanumName p.1 = true ∧ braceFree p.2 = true ∧ noDollar p.2 = true))

/-- Service used to witness the English-fallback theorem: empty Hebrew
dictionary, one nested English entry. -/
def svcFallbackW : I18nService :=
  { currentLanguage := Language.he
    heDict := []
    enDict := [("navigation", TransValue.dict [("about", TransValue.str "About")])]
    listeners := [] }

/-- A service with both dictionaries empty. -/
def svcEmptyDicts : I18nService :=
  { currentLanguage := Language.he, heDict := [], enDict := [], listeners := [] }

/-- A service whose English dictionary maps `greeting` to the empty
string. -/
def svcEmptyVal : I18nService :=
  { currentLanguage := Language.en
    heDict := []
    enDict := [("greeting", TransValue.str "")]
    listeners := [] }

/-- A service with one registered listener. -/
def svcListenerW : I18nService :=
  { currentLanguage := Language.he, heDict := [], enDict := [], listeners := [5] }

/-- A store whose writes fail. -/
def storeFailW : Storage := { available := false, value := none }

/-- A store whose writes succeed. -/
def storeOkW : Storage := { available := true, value := none }

/-- A concrete gallery image with the given id. -/
def mkImage (i : String) : GalleryImage :=
  { id := i
    filename := i ++ ".jpg"
    thumbnailUrl := i ++ "-thumb"
    fullUrl := i ++ "-full"
    captionKey := "gallery." ++ i
    alt := i
    width := none
    height := none }

/-- A gallery state in which image `a` has already errored. -/
def stErroredA : GalleryState :=
  { selectedIndex := none
    isLightboxOpen := false
    loadingStates := [("a", false)]
    errorStates := [("a", true)] }

/-- A three-image gallery. -/
def images3 : List GalleryImage := [mkImage "a", mkImage "b", mkImage "c"]

/-- A one-image gallery. -/
def images1 : List GalleryImage := [mkImage "d"]

/-- A lightbox state open at index 0. -/
def stOpen0 : GalleryState :=
  { selectedIndex := some 0, isLightboxOpen := true, loadingStates := [], errorStates := [] }

/-- A lightbox state open at index 2. -/
def stOpen2 : GalleryState :=
  { selectedIndex := some 2, isLightboxOpen := true, loadingStates := [], errorStates := [] }

/-- A proof that the three-image gallery opened at index 0 satisfies the
lightbox invariant. -/
def invOpen0 : LightboxInv images3 stOpen0 :=
  ⟨fun _ => ⟨0, rfl, by decide⟩, fun h => Bool.noConfusion h⟩

/-- A service whose English dictionary holds a parameterised greeting. -/
def svcInterpW : I18nService :=
  { currentLanguage := Language.en
    heDict := []
    enDict := [("welcome", TransValue.str "Hello \x7b\x7bname\x7d\x7d!")]
    listeners := [] }

/-- The template describing that greeting. -/
def tInterpW : List Chunk := [Chunk.lit "Hello ", Chunk.hole "name", Chunk.lit "!"]

/-- A service whose English dictionary resolves `k` to two adjacent
placeholders. -/
def svcOverlapW : I18nService :=
  { currentLanguage := Language.en
    heDict := []
    enDict := [("k", TransValue.str "\x7b\x7ba\x7d\x7d\x7b\x7bb\x7d\x7d")]
    listeners := [] }

/-- A single parameter whose brace-containing name spans both
placeholders. -/
def psOverlapW : List (String × String) := [("a\x7d\x7d\x7b\x7bb", "X")]

/-- The fuel of `replaceListAux` is irrelevant once it covers the input
length. -/
theorem replaceListAux_fuel (pat rep : List Char) :
    ∀ fuel1 fuel2 s, s.length ≤ fuel1 → s.length ≤ fuel2 →
      replaceListAux pat rep fuel1 s = replaceListAux pat rep fuel2 s := by
  intro fuel1
  induction fuel1 with
  | zero =>
    intro fuel2 s h1 _
    have hs : s = [] := List.eq_nil_of_length_eq_zero (Nat.le_zero.mp h1)
    subst hs
    cases fuel2 <;> rfl
  | succ f ih =>
    intro fuel2 s h1 h2
    cases s with
    | nil => cases fuel2 <;> rfl
    | cons c rest =>
      cases fuel2 with
      | zero => simp at h2
      | succ f2 =>
        simp only [replaceListAux]
        by_cases hp : pat.isPrefixOf (c :: rest) = true
        · simp only [hp, if_true]
          have hd : (List.drop (pat.length - 1) rest).length ≤ rest.length := by
            simp only [List.length_drop]
            omega
          have := ih f2 (List.drop (pat.length - 1) rest)
            (by simp only [List.length_cons] at h1; omega)
            (by simp only [List.length_cons] at h2; omega)
          rw [this]
        · rw [if_neg hp, if_neg hp]
          have := ih f2 rest
            (by simp only [List.length_cons] at h1; omega)
            (by simp only [List.length_cons] at h2; omega)
          rw [this]

/-- Step equation: replacement on the empty list. -/
theorem replaceList_nil (pat rep : List Char) : replaceList pat rep [] = [] := rfl

/-- Step equation: replacement on a nonempty list either replaces the
pattern at the head position or keeps the head character. -/
theorem replaceList_cons (pat rep : List Char) (c : Char) (rest : List Char) :
    replaceList pat rep (c :: rest) =
      if pat.isPrefixOf (c :: rest) then
        rep ++ replaceList pat rep (List.drop (pat.length - 1) rest)
      else
        c :: replaceList pat rep rest := by
  unfold replaceList
  simp only [List.length_cons, replaceListAux]
  by_cases hp : pat.isPrefixOf (c :: rest) = true
  · simp only [hp, if_true]
    rw [replaceListAux_fuel pat rep rest.length (List.drop (pat.length - 1) rest).length
      (List.drop (pat.length - 1) rest) (by simp only [List.length_drop]; omega) (Nat.le_refl _)]
  · rw [if_neg hp, if_neg hp]

/-- Appending two strings concatenates their character lists. -/
theorem str_data_append (a b : String) : (a ++ b).data = a.data ++ b.data := by
  cases a
  cases b
  rfl

/-- Strings with the same character list are equal. -/
theorem str_data_inj {a b : String} (h : a.data = b.data) : a = b := by
  cases a
  cases b
  exact congrArg String.mk h

/-- The character list of a placeholder token. -/
theorem holeToken_data (n : String) : (holeToken n).data = holePatL n.data := by
  unfold holeToken holePatL
  rw [str_data_append, str_data_append]
  rfl

/-- An alphanumeric character is not an opening brace. -/
theorem alnum_ne_lb {c : Char} (h : c.isAlphanum = true) : c ≠ lb := by
  intro he
  rw [he] at h
  exact absurd h (by decide)

/-- An alphanumeric character is not a closing brace. -/
theorem alnum_ne_rb {c : Char} (h : c.isAlphanum = true) : c ≠ rb := by
  intro he
  rw [he] at h
  exact absurd h (by decide)

/-- A string without braces provides no opening brace character. -/
theorem braceFree_no_lb {s : String} (h : braceFree s = true) : ∀ c ∈ s.data, c ≠ lb := by
  intro c hc
  have h2 := (List.all_eq_true.mp h) c hc
  simp only [Bool.and_eq_true, Bool.not_eq_true', beq_eq_false_iff_ne] at h2
  exact h2.1

/-- The characters of an alphanumeric name are alphanumeric. -/
theorem alphanumName_chars {s : String} (h : alphanumName s = true) :
    ∀ c ∈ s.data, c.isAlphanum = true :=
  fun c hc => (List.all_eq_true.mp h) c hc

/-- A list is a `isPrefixOf`-prefix of itself followed by anything. -/
theorem isPrefixOf_append_self : ∀ (a b : List Char), a.isPrefixOf (a ++ b) = true := by
  intro a b
  induction a with
  | nil => simp
  | cons c a ih => simp [List.isPrefixOf_cons₂, ih]

/-- The scan never matches a brace-opening pattern inside brace-free
text: the replacement copies such a stretch unchanged. -/
theorem replaceList_skip (pat rep : List Char) (hpat : ∃ p, pat = lb :: p) :
    ∀ (pre rest : List Char), (∀ c ∈ pre, c ≠ lb) →
      replaceList pat rep (pre ++ rest) = pre ++ replaceList pat rep rest := by
  obtain ⟨p, rfl⟩ := hpat
  intro pre
  induction pre with
  | nil => intro rest _; rfl
  | cons c pre ih =>
    intro rest h
    have hc : c ≠ lb := h c (List.mem_cons_self c pre)
    rw [List.cons_append, replaceList_cons]
    have hnp : (lb :: p).isPrefixOf (c :: (pre ++ rest)) = false := by
      rw [List.isPrefixOf_cons₂, beq_eq_false_iff_ne.mpr (Ne.symm hc), Bool.false_and]
    rw [hnp, if_neg Bool.false_ne_true]
    rw [ih rest (fun d hd => h d (List.mem_cons_of_mem c hd))]
    rfl

/-- The scan replaces a placeholder occurrence of the searched name. -/
theorem replaceList_match (q rep rest : List Char) :
    replaceList (holePatL q) rep (holePatL q ++ rest)
      = rep ++ replaceList (holePatL q) rep rest := by
  have e0 : holePatL q ++ rest = lb :: ((lb :: (q ++ [rb, rb])) ++ rest) := rfl
  rw [e0, replaceList_cons]
  have hp : (holePatL q).isPrefixOf (lb :: ((lb :: (q ++ [rb, rb])) ++ rest)) = true := by
    have e1 : lb :: ((lb :: (q ++ [rb, rb])) ++ rest) = holePatL q ++ rest := rfl
    rw [e1]
    exact isPrefixOf_append_self _ _
  rw [hp, if_pos (Eq.refl true)]
  congr 1
  have hlen : (holePatL q).length - 1 = (lb :: (q ++ [rb, rb])).length := by
    simp [holePatL]
  rw [hlen, List.drop_left]

/-- Two distinct alphanumeric names never confuse the prefix test on the
name-and-closing part of their placeholders. -/
theorem isPrefixOf_names_false :
    ∀ (q n rest : List Char), (∀ c ∈ q, c.isAlphanum = true) →
      (∀ c ∈ n, c.isAlphanum = true) → q ≠ n →
      (q ++ [rb, rb]).isPrefixOf (n ++ rb :: rb :: rest) = false := by
  intro q
  induction q with
  | nil =>
    intro n rest _ hn hne
    cases n with
    | nil => exact absurd rfl hne
    | cons c n2 =>
      simp only [List.nil_append, List.cons_append]
      rw [List.isPrefixOf_cons₂,
        beq_eq_false_iff_ne.mpr
          (Ne.symm (alnum_ne_rb (hn c (List.mem_cons_self c n2)))),
        Bool.false_and]
  | cons a q2 ih =>
    intro n rest hq hn hne
    cases n with
    | nil =>
      simp only [List.cons_append, List.nil_append]
      rw [List.isPrefixOf_cons₂,
        beq_eq_false_iff_ne.mpr (alnum_ne_rb (hq a (List.mem_cons_self a q2))),
        Bool.false_and]
    | cons b n2 =>
      simp only [List.cons_append]
      rw [List.isPrefixOf_cons₂]
      by_cases hab : a = b
      · subst hab
        have hne2 : q2 ≠ n2 := fun h => hne (by rw [h])
        rw [ih n2 rest (fun d hd => hq d (List.mem_cons_of_mem a hd))
          (fun d hd => hn d (List.mem_cons_of_mem a hd)) hne2]
        simp
      · rw [beq_eq_false_iff_ne.mpr hab, Bool.false_and]

/-- The pattern does not match one character into a placeholder. -/
theorem isPrefixOf_inside_false (q : List Char) :
    ∀ (n rest : List Char), (∀ c ∈ n, c.isAlphanum = true) →
      (lb :: (q ++ [rb, rb])).isPrefixOf (n ++ rb :: rb :: rest) = false := by
  intro n rest hn
  cases n with
  | nil =>
    simp only [List.nil_append]
    rw [List.isPrefixOf_cons₂, show (lb == rb) = false by decide, Bool.false_and]
  | cons c n2 =>
    simp only [List.cons_append]
    rw [List.isPrefixOf_cons₂,
      beq_eq_false_iff_ne.mpr
        (Ne.symm (alnum_ne_lb (hn c (List.mem_cons_self c n2)))),
      Bool.false_and]

/-- The scan copies a placeholder of a different alphanumeric name
unchanged. -/
theorem replaceList_hole_other (q n rep rest : List Char)
    (hq : ∀ c ∈ q, c.isAlphanum = true) (hn : ∀ c ∈ n, c.isAlphanum = true)
    (hne : q ≠ n) :
    replaceList (holePatL q) rep (holePatL n ++ rest)
      = holePatL n ++ replaceList (holePatL q) rep rest := by
  have e0 : holePatL n ++ rest = lb :: (lb :: ((n ++ [rb, rb]) ++ rest)) := rfl
  have ea : (n ++ [rb, rb]) ++ rest = n ++ rb :: rb :: rest := by simp
  have hside : ∀ c ∈ n ++ [rb, rb], c ≠ lb := by
    intro c hc
    rcases List.mem_append.mp hc with hcn | hcr
    · exact alnum_ne_lb (hn c hcn)
    · have hcrb : c = rb := by
        simp only [List.mem_cons, List.not_mem_nil, or_false] at hcr
        exact hcr.elim id id
      rw [hcrb]
      decide
  rw [e0, replaceList_cons]
  have h0 : (holePatL q).isPrefixOf (lb :: (lb :: ((n ++ [rb, rb]) ++ rest))) = false := by
    simp only [holePatL]
    rw [List.isPrefixOf_cons₂, List.isPrefixOf_cons₂, ea,
      isPrefixOf_names_false q n rest hq hn hne]
    simp
  rw [h0, if_neg Bool.false_ne_true, replaceList_cons]
  have h1 : (holePatL q).isPrefixOf (lb :: ((n ++ [rb, rb]) ++ rest)) = false := by
    simp only [holePatL]
    rw [List.isPrefixOf_cons₂, ea, isPrefixOf_inside_false q n rest hn]
    simp
  rw [h1, if_neg Bool.false_ne_true]
  rw [replaceList_skip (holePatL q) rep ⟨_, rfl⟩ (n ++ [rb, rb]) rest hside]
  rfl

/-- A rendered chunk list has the same characters as the rendered
template string. -/
theorem renderTemplate_data : ∀ t, (renderTemplate t).data = renderL t := by
  intro t
  induction t with
  | nil => rfl
  | cons c t ih =>
    cases c with
    | lit s =>
      show (s ++ renderTemplate t).data = s.data ++ renderL t
      rw [str_data_append, ih]
    | hole n =>
      show (holeToken n ++ renderTemplate t).data = holePatL n.data ++ renderL t
      rw [str_data_append, ih, holeToken_data]

/-- One interpolation pass over a well-formed rendered chunk list acts
chunkwise: it substitutes exactly the holes carrying the processed
parameter's name. -/
theorem pass_render (k v : String) (hk : alphanumName k = true) :
    ∀ t : List Chunk, (∀ c ∈ t, ChunkOK c) →
      replaceList (holePatL k.data) v.data (renderL t)
        = renderL (t.map (passChunk k v)) := by
  intro t
  induction t with
  | nil => intro _; rfl
  | cons c t ih =>
    intro h
    have hc := h c (List.mem_cons_self c t)
    have ht := fun d hd => h d (List.mem_cons_of_mem c hd)
    cases c with
    | lit s =>
      show replaceList (holePatL k.data) v.data (s.data ++ renderL t)
        = s.data ++ renderL (t.map (passChunk k v))
      rw [replaceList_skip (holePatL k.data) v.data ⟨_, rfl⟩ s.data (renderL t)
        (braceFree_no_lb hc)]
      rw [ih ht]
    | hole n =>
      by_cases hnk : n = k
      · subst hnk
        show replaceList (holePatL n.data) v.data (holePatL n.data ++ renderL t)
          = renderL (passChunk n v (Chunk.hole n) :: t.map (passChunk n v))
        rw [replaceList_match]
        rw [ih ht]
        simp [passChunk, renderL, chunkL]
      · show replaceList (holePatL k.data) v.data (holePatL n.data ++ renderL t)
          = renderL (passChunk k v (Chunk.hole n) :: t.map (passChunk k v))
        rw [replaceList_hole_other k.data n.data v.data (renderL t)
          (alphanumName_chars hk) (alphanumName_chars hc)
          (fun hd => hnk (str_data_inj hd).symm)]
        rw [ih ht]
        simp [passChunk, renderL, chunkL, hnk]

/-- One interpolation pass preserves well-formedness when the inserted
value has no braces. -/
theorem passChunk_OK (k v : String) (hv : braceFree v = true) :
    ∀ t : List Chunk, (∀ c ∈ t, ChunkOK c) →
      ∀ c ∈ t.map (passChunk k v), ChunkOK c := by
  intro t h c hc
  obtain ⟨d, hd, rfl⟩ := List.mem_map.mp hc
  cases d with
  | lit s => exact h _ hd
  | hole n =>
    by_cases hnk : (n == k) = true
    · simp only [passChunk, hnk, if_true]
      exact hv
    · have hf : (n == k) = false := (Bool.not_eq_true _) ▸ hnk
      simp only [passChunk, hf]
      exact h _ hd

/-- With no parameters, the interpolated rendering is the plain
rendering. -/
theorem renderSubst_nil : ∀ t, renderSubst [] t = renderTemplate t := by
  intro t
  induction t with
  | nil => rfl
  | cons c t ih =>
    cases c with
    | lit s =>
      show s ++ renderSubst [] t = s ++ renderTemplate t
      rw [ih]
    | hole n =>
      show holeToken n ++ renderSubst [] t = holeToken n ++ renderTemplate t
      rw [ih]

/-- Interpolating the remaining parameters after one chunkwise pass is
interpolating all parameters at once. -/
theorem renderSubst_pass (k v : String) :
    ∀ (t : List Chunk) (ps : List (String × String)),
      renderSubst ps (t.map (passChunk k v)) = renderSubst ((k, v) :: ps) t := by
  intro t ps
  induction t with
  | nil => rfl
  | cons c t ih =>
    cases c with
    | lit s =>
      show s ++ renderSubst ps (t.map (passChunk k v))
        = s ++ renderSubst ((k, v) :: ps) t
      rw [ih]
    | hole n =>
      by_cases hnk : (n == k) = true
      · show substChunk ps (passChunk k v (Chunk.hole n)) ++ _ = substChunk ((k, v) :: ps) (Chunk.hole n) ++ _
        simp only [passChunk, hnk, if_true, substChunk, List.lookup, hnk]
        rw [ih]
      · have hf : (n == k) = false := (Bool.not_eq_true _) ▸ hnk
        show substChunk ps (passChunk k v (Chunk.hole n)) ++ _
          = substChunk ((k, v) :: ps) (Chunk.hole n) ++ _
        simp only [passChunk, substChunk, List.lookup, hf, Bool.false_eq_true, if_false]
        rw [ih]

/-- Interpolation over a well-formed resolved string acts exactly
placeholder-wise. -/
theorem applyParams_render :
    ∀ (ps : List (String × String)) (t : List Chunk),
      (∀ c ∈ t, ChunkOK c) → (∀ p ∈ ps, ParamOK p) →
      applyParams (renderTemplate t) ps = renderSubst ps t := by
  intro ps
  induction ps with
  | nil =>
    intro t _ _
    exact (renderSubst_nil t).symm
  | cons p ps ih =>
    intro t ht hp
    obtain ⟨k, v⟩ := p
    have hp1 : ParamOK (k, v) := hp _ (List.mem_cons_self _ _)
    have e1 : applyParams (renderTemplate t) ((k, v) :: ps)
        = applyParams (replaceAllStr (renderTemplate t) (holeToken k) v) ps := rfl
    rw [e1]
    have e2 : replaceAllStr (renderTemplate t) (holeToken k) v
        = renderTemplate (t.map (passChunk k v)) := by
      apply str_data_inj
      show replaceList (holeToken k).data v.data (renderTemplate t).data
        = (renderTemplate (t.map (passChunk k v))).data
      rw [renderTemplate_data, renderTemplate_data, holeToken_data]
      exact pass_render k v hp1.1 t ht
    rw [e2]
    rw [ih (t.map (passChunk k v)) (passChunk_OK k v hp1.2.1 t ht)
      (fun r hr => hp r (List.mem_cons_of_mem _ hr))]
    exact renderSubst_pass k v t ps

/-- Claim C3 (amended part): for a key resolving to a well-formed string —
an alternation of brace-free literal text and placeholders with
alphanumeric names — and parameters with alphanumeric names and
brace-free, dollar-free values, `translate` replaces every placeholder
that has a parameter entry with the (first) corresponding value and leaves
every placeholder without a matching entry intact. -/
theorem translate_interpolation (svc : I18nService) (key : String) (t : List Chunk)
    (ps : List (String × String))
    (hres : resolveValue svc key = some (TransValue.str (renderTemplate t)))
    (ht : ∀ c ∈ t, ChunkOK c) (hp : ∀ p ∈ ps, ParamOK p) :
    translate svc key ps = renderSubst ps t := by
  unfold translate
  rw [hres]
  exact applyParams_render ps t ht hp

/-- Witness for the amended C3: the placeholder is replaced by the
supplied parameter value. -/
theorem translate_interpolation_witness :
    translate svcInterpW "welcome" [("name", "Ofra")] = "Hello Ofra!" := by
  have h := translate_interpolation svcInterpW "welcome" tInterpW
    [("name", "Ofra")] rfl (by decide) (by decide)
  exact h.trans rfl

/-- Counterexample to C3 as stated: the resolved string contains the
placeholder of name `a`, the params mapping has no entry named `a`, and
yet the returned string no longer contains that placeholder — the single
brace-containing parameter name forms an overlapping placeholder whose
replacement consumes it, so unmatched placeholders are not always left
intact. -/
theorem translate_interpolation_cex :
    translate svcOverlapW "k" psOverlapW = "X" ∧
    strOccurs "\x7b\x7ba\x7d\x7d\x7b\x7bb\x7d\x7d" "\x7b\x7ba\x7d\x7d" = true ∧
    List.lookup "a" psOverlapW = none ∧
    strOccurs (translate svcOverlapW "k" psOverlapW) "\x7b\x7ba\x7d\x7d" = false := by
  refine ⟨?_, rfl, rfl, ?_⟩ <;> rfl

/-- Claim C1: for a dotted key whose full path resolves to a string in the
English dictionary, if the walk through the active non-English (Hebrew)
dictionary fails at any path segment, `translate(key)` returns the English
value — the fallback restarts from the English dictionary with the full
original key path. -/
theorem translate_english_fallback (svc : I18nService) (key s : String)
    (hlang : svc.currentLanguage = Language.he)
    (hcur : walkPath (keySegments key) (TransValue.dict svc.heDict) = none)
    (hen : walkPath (keySegments key) (TransValue.dict svc.enDict) = some (TransValue.str s)) :
    translate svc key [] = s := by
  unfold translate resolveValue
  rw [hlang]
  simp only [langDict, hcur, hen]
  rfl

/-- Witness for C1 at the concrete key `navigation.about`. -/
theorem translate_english_fallback_witness :
    translate svcFallbackW "navigation.about" [] = "About" :=
  translate_english_fallback svcFallbackW "navigation.about" "About" rfl rfl rfl

/-- Claim C2 (amended part): if the key's path resolves to a string in
neither the active nor the English dictionary — because it is absent from
both, or because the resolved value is a nested dictionary rather than a
string — then `translate` returns the original key verbatim, for any
language and any parameter list.  (`translate` is a total function by
construction: it never throws and never returns an undefined value.) -/
theorem translate_total_miss (svc : I18nService) (key : String)
    (params : List (String × String))
    (h : ∀ s, resolveValue svc key ≠ some (TransValue.str s)) :
    translate svc key params = key := by
  unfold translate
  cases hr : resolveValue svc key with
  | none => rfl
  | some v =>
    cases v with
    | str s => exact absurd hr (h s)
    | dict d => rfl

/-- Witness for the amended C2 at a concrete key missing from both
dictionaries. -/
theorem translate_total_miss_witness :
    translate svcEmptyDicts "missing.key" [] = "missing.key" :=
  translate_total_miss svcEmptyDicts "missing.key" []
    (fun s h => by
      rw [show resolveValue svcEmptyDicts "missing.key" = none from rfl] at h
      exact Option.noConfusion h)

/-- Counterexample to C2 as stated: the claim says `translate` never
returns an empty result, but a key resolving to the empty string makes
`translate` return the empty string. -/
theorem translate_empty_result_cex :
    translate svcEmptyVal "greeting" [] = "" ∧ ("" : String).length = 0 :=
  ⟨rfl, rfl⟩

/-- Claim C5: when the persisted store's write throws (storage
unavailable), `setLanguage` still sets the in-memory language, leaves the
store as it was (the error is caught, only logged), and still notifies
every subscriber with the new language; no error reaches the caller
(`setLanguage` is total). -/
theorem setLanguage_persistence_failure (svc : I18nService) (store : Storage)
    (lang : Language) (h : store.available = false) :
    storageSetItem store (langCode lang) = Except.error () ∧
    (setLanguage svc store lang).1.currentLanguage = lang ∧
    (setLanguage svc store lang).2.1 = store ∧
    (setLanguage svc store lang).2.2 = svc.listeners.map (fun l => (l, lang)) := by
  refine ⟨?_, rfl, ?_, rfl⟩
  · simp [storageSetItem, h]
  · simp [setLanguage, saveLanguageToStorage, storageSetItem, h]

/-- Witness for C5: with a failing store, the in-memory language still
changes and the listener is still notified. -/
theorem setLanguage_persistence_failure_witness :
    (setLanguage svcListenerW storeFailW Language.en).1.currentLanguage = Language.en ∧
    (setLanguage svcListenerW storeFailW Language.en).2.2 = [(5, Language.en)] := by
  have h := setLanguage_persistence_failure svcListenerW storeFailW Language.en rfl
  exact ⟨h.2.1, h.2.2.2⟩

/-- Claim C8 (amended part): the Gallery's images-changed effect rebuilds
the loading-state map, seeding every image id of the new list to the
loading state, and changes nothing else — in particular previously
recorded errored flags are left in `errorStates`, not reset. -/
theorem imagesChangedEffect_spec (images : List GalleryImage) (st : GalleryState) :
    (imagesChangedEffect images st).loadingStates
      = images.map (fun image => (image.id, true)) ∧
    (imagesChangedEffect images st).errorStates = st.errorStates ∧
    (imagesChangedEffect images st).selectedIndex = st.selectedIndex ∧
    (imagesChangedEffect images st).isLightboxOpen = st.isLightboxOpen :=
  ⟨rfl, rfl, rfl, rfl⟩

/-- Counterexample to C8 as stated: replacing the image list does NOT
reset previously recorded errored flags — after the effect runs for a
fresh list containing image `a`, the errored flag recorded for `a` is
still present, while the claim says all per-image state including errored
flags is reset. -/
theorem imagesChangedEffect_error_cex :
    (imagesChangedEffect [mkImage "a", mkImage "b"] stErroredA).errorStates = [("a", true)] ∧
    List.lookup "a" (imagesChangedEffect [mkImage "a", mkImage "b"] stErroredA).errorStates
      = some true :=
  ⟨rfl, rfl⟩

/-- Repeated `handleNext` calls advance the selected index, saturating at
the last image. -/
theorem handleNext_iter (images : List GalleryImage) :
    ∀ (k : Nat) (st : GalleryState) (i : Nat), st.selectedIndex = some i →
      i < images.length →
      ((handleNext images)^[k] st).selectedIndex = some (min (i + k) (images.length - 1)) := by
  intro k
  induction k with
  | zero =>
    intro st i hsel hi
    simp only [Function.iterate_zero, id_eq]
    rw [hsel]
    congr 1
    omega
  | succ k ih =>
    intro st i hsel hi
    rw [Function.iterate_succ_apply]
    by_cases hb : i < images.length - 1
    · have h1 : (handleNext images st).selectedIndex = some (i + 1) := by
        simp [handleNext, hsel, hb]
      rw [ih (handleNext images st) (i + 1) h1 (by omega)]
      congr 1
      omega
    · have hst : handleNext images st = st := by
        simp [handleNext, hsel, hb]
      rw [hst, ih st i hsel hi]
      congr 1
      omega

/-- Repeated `handlePrevious` calls retreat the selected index, saturating
at index `0`. -/
theorem handlePrevious_iter :
    ∀ (k : Nat) (st : GalleryState) (i : Nat), st.selectedIndex = some i →
      (handlePrevious^[k] st).selectedIndex = some (i - k) := by
  intro k
  induction k with
  | zero =>
    intro st i hsel
    simpa using hsel
  | succ k ih =>
    intro st i hsel
    rw [Function.iterate_succ_apply]
    by_cases hb : 0 < i
    · have h1 : (handlePrevious st).selectedIndex = some (i - 1) := by
        simp [handlePrevious, hsel, hb]
      rw [ih (handlePrevious st) (i - 1) h1]
      congr 1
      omega
    · have hst : handlePrevious st = st := by
        simp [handlePrevious, hsel, hb]
      rw [hst, ih st i hsel]
      congr 1
      omega

/-- Claim C6: with the lightbox open at index `i` of an `N ≥ 1`-image
gallery, `next` moves to `i+1` exactly when `i+1 < N` and is a no-op at
the last image (no wraparound); `previous` moves to `i-1` exactly when
`i ≥ 1` and is a no-op at index `0`; consequently repeated `next` calls
saturate at `N-1` and repeated `previous` calls saturate at `0`. -/
theorem lightbox_bounds (images : List GalleryImage) (st : GalleryState) (i : Nat)
    (hN : 1 ≤ images.length) (hsel : st.selectedIndex = some i)
    (hi : i < images.length) :
    (i + 1 < images.length → (handleNext images st).selectedIndex = some (i + 1)) ∧
    (i + 1 = images.length → handleNext images st = st) ∧
    (0 < i → (handlePrevious st).selectedIndex = some (i - 1)) ∧
    (i = 0 → handlePrevious st = st) ∧
    (∀ k, ((handleNext images)^[k] st).selectedIndex
      = some (min (i + k) (images.length - 1))) ∧
    (∀ k, (handlePrevious^[k] st).selectedIndex = some (i - k)) := by
  refine ⟨?_, ?_, ?_, ?_, ?_, ?_⟩
  · intro h
    simp [handleNext, hsel, show i < images.length - 1 by omega]
  · intro h
    simp [handleNext, hsel, show ¬ i < images.length - 1 by omega]
  · intro h
    simp [handlePrevious, hsel, h]
  · intro h
    subst h
    simp [handlePrevious, hsel]
  · intro k
    exact handleNext_iter images k st i hsel hi
  · intro k
    exact handlePrevious_iter k st i hsel

/-- Witness for C6 on a concrete three-image gallery opened at index 0:
one `next` selects index 1, and three `next` calls saturate at index 2. -/
theorem lightbox_bounds_witness :
    (handleNext images3 stOpen0).selectedIndex = some 1 ∧
    ((handleNext images3)^[3] stOpen0).selectedIndex = some 2 := by
  have h := lightbox_bounds images3 stOpen0 0 (by decide) rfl (by decide)
  exact ⟨h.1 (by decide), h.2.2.2.2.1 3⟩

/-- Claim C7 (amended part): the lightbox invariant — open implies a
selected index that is in range, closed implies no selected index — is
preserved by opening a rendered thumbnail (whose index is a valid index of
the list), by close, next and previous, and by an image-list replacement
provided the lightbox is closed or the new list is still long enough for
the currently selected index. -/
theorem lightbox_invariant_preserved (images : List GalleryImage) (st : GalleryState)
    (hinv : LightboxInv images st) :
    (∀ i, i < images.length → LightboxInv images (handleThumbnailClick st i)) ∧
    LightboxInv images (handleClose st) ∧
    LightboxInv images (handleNext images st) ∧
    LightboxInv images (handlePrevious st) ∧
    (∀ newImages : List GalleryImage,
      (st.isLightboxOpen = false ∨ ∀ i, st.selectedIndex = some i → i < newImages.length) →
      LightboxInv newImages (imagesChangedEffect newImages st)) := by
  obtain ⟨hopen, hclosed⟩ := hinv
  refine ⟨?_, ?_, ?_, ?_, ?_⟩
  · intro i hi
    exact ⟨fun _ => ⟨i, rfl, hi⟩, fun h => Bool.noConfusion h⟩
  · exact ⟨fun h => Bool.noConfusion h, fun _ => rfl⟩
  · cases hsel : st.selectedIndex with
    | none =>
      have hst : handleNext images st = st := by simp [handleNext, hsel]
      rw [hst]
      exact ⟨hopen, hclosed⟩
    | some i =>
      by_cases hb : i < images.length - 1
      · have hst : handleNext images st = { st with selectedIndex := some (i + 1) } := by
          simp [handleNext, hsel, hb]
        rw [hst]
        constructor
        · intro ho
          obtain ⟨j, hj, hjlt⟩ := hopen ho
          exact ⟨i + 1, rfl, by omega⟩
        · intro hc
          have := hclosed hc
          rw [hsel] at this
          exact Option.noConfusion this
      · have hst : handleNext images st = st := by simp [handleNext, hsel, hb]
        rw [hst]
        exact ⟨hopen, hclosed⟩
  · cases hsel : st.selectedIndex with
    | none =>
      have hst : handlePrevious st = st := by simp [handlePrevious, hsel]
      rw [hst]
      exact ⟨hopen, hclosed⟩
    | some i =>
      by_cases hb : 0 < i
      · have hst : handlePrevious st = { st with selectedIndex := some (i - 1) } := by
          simp [handlePrevious, hsel, hb]
        rw [hst]
        constructor
        · intro ho
          obtain ⟨j, hj, hjlt⟩ := hopen ho
          rw [hsel] at hj
          have hij : i = j := Option.some.inj hj
          exact ⟨i - 1, rfl, by omega⟩
        · intro hc
          have := hclosed hc
          rw [hsel] at this
          exact Option.noConfusion this
      · have hst : handlePrevious st = st := by simp [handlePrevious, hsel, hb]
        rw [hst]
        exact ⟨hopen, hclosed⟩
  · intro newImages hguard
    constructor
    · intro ho
      obtain ⟨i, hsel, _⟩ := hopen ho
      rcases hguard with hg | hg
      · have ho2 : st.isLightboxOpen = true := ho
        rw [ho2] at hg
        exact Bool.noConfusion hg
      · exact ⟨i, hsel, hg i hsel⟩
    · intro hc
      exact hclosed hc

/-- Witness for the amended C7: stepping `next` from the concrete open
state keeps the invariant. -/
theorem lightbox_invariant_preserved_witness :
    LightboxInv images3 (handleNext images3 stOpen0) :=
  (lightbox_invariant_preserved images3 stOpen0 invOpen0).2.2.1

/-- Counterexample to C7 as stated: replacing the image list does not
re-establish the invariant — with the lightbox open at index 2 of a
three-image gallery, replacing the list with a one-image list leaves the
stale selected index 2, which is out of range for the new list. -/
theorem lightbox_invariant_cex :
    LightboxInv images3 stOpen2 ∧
    ¬ LightboxInv images1 (imagesChangedEffect images1 stOpen2) := by
  constructor
  · exact ⟨fun _ => ⟨2, rfl, by decide⟩, fun h => Bool.noConfusion h⟩
  · intro h
    obtain ⟨i, hsel, hlt⟩ := h.1 rfl
    have hi : (2 : Nat) = i := Option.some.inj hsel
    rw [← hi] at hlt
    exact absurd hlt (by decide)

/-- Notification events of a listener that is not registered: none. -/
theorem map_filter_eq_nil {L : List Nat} {l : Nat} (h : l ∉ L) (x : Language) :
    (L.map (fun a => (a, x))).filter (fun p => p.1 == l) = [] := by
  induction L with
  | nil => rfl
  | cons a t ih =>
    simp only [List.mem_cons, not_or] at h
    simp only [List.map_cons, List.filter_cons]
    rw [if_neg (by simp only [beq_iff_eq]; exact fun he => h.1 he.symm)]
    exact ih h.2

/-- Notification events of a registered listener in a duplicate-free
listener list: exactly one, carrying the notified value. -/
theorem map_filter_eq_single {L : List Nat} {l : Nat} (hl : l ∈ L) (hnd : L.Nodup)
    (x : Language) :
    (L.map (fun a => (a, x))).filter (fun p => p.1 == l) = [(l, x)] := by
  induction L with
  | nil => cases hl
  | cons a t ih =>
    simp only [List.map_cons, List.filter_cons]
    rcases List.mem_cons.mp hl with rfl | hlt
    · rw [if_pos (by simp)]
      rw [map_filter_eq_nil (List.Nodup.not_mem hnd) x]
    · have hal : a ≠ l := by
        intro he
        subst he
        exact List.Nodup.not_mem hnd hlt
      rw [if_neg (by simp [hal])]
      exact ih hlt (List.Nodup.of_cons hnd)

/-- Subscribing registers the listener. -/
theorem subscribe_mem (svc : I18nService) (l : Nat) : l ∈ (subscribe svc l).listeners := by
  unfold subscribe
  by_cases h : l ∈ svc.listeners
  · rw [if_pos h]
    exact h
  · rw [if_neg h]
    simp

/-- Subscribing keeps the listener list duplicate-free (a JS `Set` holds
each callback at most once). -/
theorem subscribe_nodup (svc : I18nService) (l : Nat) (hnd : svc.listeners.Nodup) :
    (subscribe svc l).listeners.Nodup := by
  unfold subscribe
  by_cases h : l ∈ svc.listeners
  · rw [if_pos h]
    exact hnd
  · rw [if_neg h]
    simp [List.nodup_append, hnd, h]

/-- Subscribing only ever adds the subscribed listener. -/
theorem subscribe_mem_of_ne (svc : I18nService) (l m : Nat) (hne : l ≠ m)
    (h : l ∉ svc.listeners) : l ∉ (subscribe svc m).listeners := by
  unfold subscribe
  by_cases hm : m ∈ svc.listeners
  · rw [if_pos hm]
    exact h
  · rw [if_neg hm]
    simp [h, hne]

/-- An unregistered listener receives no invocation event from any later
sequence of operations that does not re-subscribe it. -/
theorem runOps_no_events (l : Nat) :
    ∀ (ops : List Op) (svc : I18nService) (store : Storage), l ∉ svc.listeners →
      (∀ op ∈ ops, op ≠ Op.sub l) →
      (runOps svc store ops).2.2.filter (fun p => p.1 == l) = [] := by
  intro ops
  induction ops with
  | nil => intro svc store _ _; rfl
  | cons op t ih =>
    intro svc store h1 h2
    cases op with
    | sub m =>
      have hml : l ≠ m := by
        intro he
        exact h2 (Op.sub m) (List.mem_cons_self _ _) (by rw [he])
      simp only [runOps, applyOp, List.nil_append]
      exact ih (subscribe svc m) store (subscribe_mem_of_ne svc l m hml h1)
        (fun op hop => h2 op (List.mem_cons_of_mem _ hop))
    | unsub m =>
      simp only [runOps, applyOp, List.nil_append]
      exact ih (unsubscribe svc m) store
        (fun hmem => h1 (List.mem_of_mem_erase hmem))
        (fun op hop => h2 op (List.mem_cons_of_mem _ hop))
    | setLang y =>
      have e1 : (setLanguage svc store y).2.2 = svc.listeners.map (fun a => (a, y)) := rfl
      have e2 : (runOps svc store (Op.setLang y :: t)).2.2
          = (setLanguage svc store y).2.2
            ++ (runOps (setLanguage svc store y).1 (setLanguage svc store y).2.1 t).2.2 := rfl
      rw [e2, List.filter_append, e1, map_filter_eq_nil h1 y]
      rw [ih (setLanguage svc store y).1 (setLanguage svc store y).2.1 h1
        (fun op hop => h2 op (List.mem_cons_of_mem _ hop))]
      rfl

/-- Claim C4: after `subscribe`, a `setLanguage(x)` call invokes the
registered callback exactly once, with `x`, among the synchronous
notification events produced before `setLanguage` returns; after running
the unsubscribe function returned by `subscribe`, the listener is
deregistered and no later operation sequence that does not re-subscribe it
ever produces an invocation event for it; running the unsubscribe function
a second time is a no-op. -/
theorem subscribe_notify_unsubscribe (svc : I18nService) (store : Storage) (l : Nat)
    (x : Language) (hnd : svc.listeners.Nodup) :
    l ∈ (subscribe svc l).listeners ∧
    (setLanguage (subscribe svc l) store x).2.2.filter (fun p => p.1 == l) = [(l, x)] ∧
    l ∉ (unsubscribe (subscribe svc l) l).listeners ∧
    (∀ (ops : List Op) (store2 : Storage), (∀ op ∈ ops, op ≠ Op.sub l) →
      (runOps (unsubscribe (subscribe svc l) l) store2 ops).2.2.filter
        (fun p => p.1 == l) = []) ∧
    unsubscribe (unsubscribe (subscribe svc l) l) l = unsubscribe (subscribe svc l) l := by
  have hmem := subscribe_mem svc l
  have hnd2 := subscribe_nodup svc l hnd
  have hgone : l ∉ (unsubscribe (subscribe svc l) l).listeners :=
    List.Nodup.not_mem_erase hnd2
  refine ⟨hmem, ?_, hgone, ?_, ?_⟩
  · exact map_filter_eq_single hmem hnd2 x
  · intro ops store2 hops
    exact runOps_no_events l ops _ store2 hgone hops
  · have h3 : ((subscribe svc l).listeners.erase l).erase l
        = (subscribe svc l).listeners.erase l :=
      List.erase_of_not_mem hgone
    unfold unsubscribe
    rw [h3]

/-- Witness for C4: subscribing listener 7 to a fresh service and setting
the language to English produces exactly one invocation event for it. -/
theorem subscribe_notify_unsubscribe_witness :
    (setLanguage (subscribe svcEmptyDicts 7) storeOkW Language.en).2.2.filter
      (fun p => p.1 == 7) = [(7, Language.en)] :=
  (subscribe_notify_unsubscribe svcEmptyDicts storeOkW 7 Language.en (by decide)).2.1

/-- Claim C10: subscribing an identical callback twice yields a single
registration — the double subscribe equals the single subscribe, one
language change still invokes the callback only once, and one call of the
unsubscribe function removes the registration entirely. -/
theorem subscribe_idempotent (svc : I18nService) (store : Storage) (l : Nat) (x : Language)
    (hnd : svc.listeners.Nodup) :
    subscribe (subscribe svc l) l = subscribe svc l ∧
    (setLanguage (subscribe (subscribe svc l) l) store x).2.2.filter
      (fun p => p.1 == l) = [(l, x)] ∧
    l ∉ (unsubscribe (subscribe (subscribe svc l) l) l).listeners := by
  have hmem := subscribe_mem svc l
  have hnd2 := subscribe_nodup svc l hnd
  have hdouble : subscribe (subscribe svc l) l = subscribe svc l := by
    unfold subscribe
    rw [if_pos]
    exact hmem
  refine ⟨hdouble, ?_, ?_⟩
  · rw [hdouble]
    exact map_filter_eq_single hmem hnd2 x
  · rw [hdouble]
    exact List.Nodup.not_mem_erase hnd2

/-- Witness for C10: double-subscribing listener 3 equals subscribing it
once. -/
theorem subscribe_idempotent_witness :
    subscribe (subscribe svcEmptyDicts 3) 3 = subscribe svcEmptyDicts 3 :=
  (subscribe_idempotent svcEmptyDicts storeOkW 3 Language.he (by decide)).1

/-- Claim C9: when the runtime lacks `IntersectionObserver`, the
lazy-load hook fails open — attaching to an element immediately reports
both intersection flags true, so the LazyImage effect starts the image
load (sets the image source) without the element ever becoming visible,
rather than throwing or leaving the image hidden. -/
theorem lazyLoad_fail_open (st : LazyLoadState) (src : String) :
    (lazyLoadEffect true false st).hasIntersected = true ∧
    (lazyLoadEffect true false st).isIntersecting = true ∧
    lazyImageSrcEffect (lazyLoadEffect true false st).hasIntersected src none = some src :=
  ⟨rfl, rfl, rfl⟩

end Site
